import Mathlib

/-!
Shallow embedding of the pod5 signal table reader
(src/c++/pod5_format/signal_table_reader.h).

The repository provides the header only: declarations of
SignalTableRecordBatch (samples_byte_count, extract_signal_row) and of
SignalTableReader (read_record_batch, signal_batch_for_row_id,
extract_sample_count, extract_samples), together with the cached
m_batch_size member.  The function bodies are not part of the source
tree, so every operational definition below is modelled from the
specification document; each such definition carries a doc comment
saying so.

Samples (int16) are modelled as Int, compressed byte blobs as List Nat,
and the vbz codec as an arbitrary function parameter named decode.  The
mutable atomic m_batch_size cache is threaded explicitly: every reader
operation takes the current cache value and returns the updated one, so
that cache independence of results can be stated and proved.
-/

namespace Pod5

/-- Error kinds surfaced by the reader (spec section 7). -/
inductive Pod5Error where
  | OutOfRange
  | SizeMismatch
  | CorruptData
  | SchemaError
  deriving DecidableEq

/-- Column locations resolved once from the schema: read id column,
optional uncompressed signal column, optional vbz signal column, and
the sample count column (spec sections 3 and 4.1). -/
structure SignalTableSchemaDescription where
  read_id : Nat
  uncompressed_signal : Option Nat
  vbz_signal : Option Nat
  samples : Nat
  deriving DecidableEq

/-- Storage of one signal row: exactly one of the raw (uncompressed)
column or the compressed (vbz) column is populated for a given file. -/
inductive SignalStorage where
  | raw (samples : List Int)
  | compressed (blob : List Nat)
  deriving DecidableEq

/-- One row of a signal table batch: the value of the sample count
column and the stored signal payload. -/
structure SignalRow where
  sampleCount : Nat
  storage : SignalStorage
  deriving DecidableEq

/-- The data model invariant of spec section 3: in raw mode the sample
count column holds the true stored sample count of the row.  For
compressed rows no static assumption is made; the codec output length
is checked at extraction time instead. -/
def SignalRow.wf (r : SignalRow) : Bool :=
  match r.storage with
  | SignalStorage.raw s => s.length == r.sampleCount
  | SignalStorage.compressed _ => true

/-- A Signal Batch View (SignalTableRecordBatch): wraps one immutable
record batch; the underlying arrow columns are modelled as the list of
rows, and the shared field location map rides along. -/
structure SignalTableRecordBatch where
  field_locations : SignalTableSchemaDescription
  rows : List SignalRow
  deriving DecidableEq

/-- The Signal Table Reader state the claims mention: the ordered batch
sequence and the shared field location map.  The m_batch_size cache is
passed to and returned from each operation explicitly. -/
structure SignalTableReader where
  field_locations : SignalTableSchemaDescription
  batches : List SignalTableRecordBatch
  deriving DecidableEq

/-- Every batch of the reader satisfies the row invariant. -/
def ReaderWF (rd : SignalTableReader) : Prop :=
  ∀ b ∈ rd.batches, ∀ r ∈ b.rows, r.wf = true

instance ReaderWF.decidable (rd : SignalTableReader) : Decidable (ReaderWF rd) :=
  inferInstanceAs (Decidable (∀ b ∈ rd.batches, ∀ r ∈ b.rows, r.wf = true))

instance exceptDecidableEq {ε α : Type} [DecidableEq ε] [DecidableEq α] :
    DecidableEq (Except ε α) := fun x y =>
  match x, y with
  | Except.error a, Except.error b =>
    if h : a = b then isTrue (by rw [h])
    else isFalse (by intro hc; injection hc with h2; exact h h2)
  | Except.error _, Except.ok _ => isFalse (by intro hc; exact Except.noConfusion hc)
  | Except.ok _, Except.error _ => isFalse (by intro hc; exact Except.noConfusion hc)
  | Except.ok a, Except.ok b =>
    if h : a = b then isTrue (by rw [h])
    else isFalse (by intro hc; injection hc with h2; exact h h2)

/-- Sample count column lookup on a batch, bounds checked. -/
def sample_count (b : SignalTableRecordBatch) (i : Nat) : Except Pod5Error Nat :=
  match b.rows[i]? with
  | none => Except.error Pod5Error.OutOfRange
  | some row => Except.ok row.sampleCount

/-- Modelled from the spec: SignalTableRecordBatch::samples_byte_count
(body absent from the source tree).  Returns sampleCount times the
sample width (2 bytes for int16 samples), from the sample count column
alone; it never consults the codec, which is visible here in that the
definition takes no decode argument at all. -/
def samples_byte_count (b : SignalTableRecordBatch) (i : Nat) : Except Pod5Error Nat :=
  Except.map (fun c => c * 2) (sample_count b i)

/-- Modelled from the spec: SignalTableRecordBatch::extract_signal_row
(body absent from the source tree).  Bounds check, then exact size
contract against the sample count column, then mode dispatch: raw rows
are copied verbatim, compressed rows are decoded and the decoded length
is checked against the sample count column.  The returned list is the
content the call writes into the caller buffer. -/
def extract_signal_row (decode : List Nat → List Int) (b : SignalTableRecordBatch)
    (i : Nat) (samples : List Int) : Except Pod5Error (List Int) :=
  match b.rows[i]? with
  | none => Except.error Pod5Error.OutOfRange
  | some row =>
    if samples.length ≠ row.sampleCount then Except.error Pod5Error.SizeMismatch
    else
      match row.storage with
      | SignalStorage.raw s => Except.ok s
      | SignalStorage.compressed blob =>
        if (decode blob).length ≠ row.sampleCount then Except.error Pod5Error.CorruptData
        else Except.ok (decode blob)

/-- Row counts of the batches in order. -/
def batch_row_counts (rd : SignalTableReader) : List Nat :=
  rd.batches.map (fun b => b.rows.length)

/-- Total logical rows: the sum of the batch row counts. -/
def total_rows (rd : SignalTableReader) : Nat :=
  (batch_row_counts rd).sum

/-- Row count of batch b (0 when b is out of range). -/
def row_count (rd : SignalTableReader) (b : Nat) : Nat :=
  (batch_row_counts rd).getD b 0

/-- Starting global row of batch b: sum of the row counts before it. -/
def batch_start_row (rd : SignalTableReader) (b : Nat) : Nat :=
  ((batch_row_counts rd).take b).sum

/-- Scan over cumulative batch row counts: given the remaining counts,
the row looked for, the index of the first remaining batch and its
starting global row, return the containing batch and its start. -/
def find_batch_in : List Nat → Nat → Nat → Nat → Option (Nat × Nat)
  | [], _, _, _ => none
  | c :: cs, row, idx, start =>
    if row < start + c then some (idx, start)
    else find_batch_in cs row (idx + 1) (start + c)

/-- The fallback scan over all batches of the reader. -/
def find_batch (rd : SignalTableReader) (row : Nat) : Option (Nat × Nat) :=
  find_batch_in (batch_row_counts rd) row 0 0

/-- Modelled from the spec: SignalTableReader::signal_batch_for_row_id
(body absent from the source tree).  Bounds check against total rows,
then the fast path: divide by the cached standard batch size (0 means
the cache is cold) and verify the candidate against the true cumulative
row counts; on verification failure fall back to the scan.  The cache
is updated opportunistically on a fallback resolution when it was cold.
Returns (result, new cache value). -/
def signal_batch_for_row_id (rd : SignalTableReader) (cache row : Nat) :
    Except Pod5Error (Nat × Nat) × Nat :=
  if row < total_rows rd then
    if cache ≠ 0 ∧ row / cache < rd.batches.length
        ∧ batch_start_row rd (row / cache) ≤ row
        ∧ row < batch_start_row rd (row / cache) + row_count rd (row / cache) then
      (Except.ok (row / cache, batch_start_row rd (row / cache)), cache)
    else
      match find_batch rd row with
      | some bs => (Except.ok bs, if cache = 0 then row_count rd 0 else cache)
      | none => (Except.error Pod5Error.OutOfRange, cache)
  else (Except.error Pod5Error.OutOfRange, cache)

/-- Modelled from the spec: SignalTableReader::read_record_batch (body
absent from the source tree).  Bounds checked access to the stored
batch views; no state is touched. -/
def read_record_batch (rd : SignalTableReader) (i : Nat) :
    Except Pod5Error SignalTableRecordBatch :=
  match rd.batches[i]? with
  | none => Except.error Pod5Error.OutOfRange
  | some b => Except.ok b

/-- Resolve one global row to (batch view, local row), threading the
cache through signal_batch_for_row_id. -/
def resolve_row (rd : SignalTableReader) (cache r : Nat) :
    Except Pod5Error (SignalTableRecordBatch × Nat) × Nat :=
  match signal_batch_for_row_id rd cache r with
  | (Except.error e, c2) => (Except.error e, c2)
  | (Except.ok (b, start), c2) =>
    match rd.batches[b]? with
    | none => (Except.error Pod5Error.OutOfRange, c2)
    | some batch => (Except.ok (batch, r - start), c2)

/-- Modelled from the spec: SignalTableReader::extract_sample_count
(body absent from the source tree).  Resolve each row in order, look up
its sample count, and sum; the first error aborts the call.  Returns
(result, new cache value). -/
def extract_sample_count (rd : SignalTableReader) :
    List Nat → Nat → Except Pod5Error Nat × Nat
  | [], cache => (Except.ok 0, cache)
  | r :: rs, cache =>
    match resolve_row rd cache r with
    | (Except.error e, c2) => (Except.error e, c2)
    | (Except.ok (batch, loc), c2) =>
      match sample_count batch loc with
      | Except.error e => (Except.error e, c2)
      | Except.ok cnt =>
        match extract_sample_count rd rs c2 with
        | (Except.error e, c3) => (Except.error e, c3)
        | (Except.ok rest, c3) => (Except.ok (cnt + rest), c3)

/-- Modelled from the spec: the write loop of extract_samples.  For
each row in order, resolve it, slice the next sampleCount cells off the
unconsumed buffer, extract into that slice, and continue on the rest.
Returns (status, concatenation of the slices written, new cache). -/
def extract_samples_go (rd : SignalTableReader) (decode : List Nat → List Int) :
    List Nat → Nat → List Int → Except Pod5Error Unit × List Int × Nat
  | [], cache, _ => (Except.ok (), [], cache)
  | r :: rs, cache, rest =>
    match resolve_row rd cache r with
    | (Except.error e, c2) => (Except.error e, [], c2)
    | (Except.ok (batch, loc), c2) =>
      match sample_count batch loc with
      | Except.error e => (Except.error e, [], c2)
      | Except.ok cnt =>
        match extract_signal_row decode batch loc (rest.take cnt) with
        | Except.error e => (Except.error e, [], c2)
        | Except.ok out =>
          match extract_samples_go rd decode rs c2 (rest.drop cnt) with
          | (st, written, c3) => (st, out ++ written, c3)

/-- Modelled from the spec: SignalTableReader::extract_samples (body
absent from the source tree).  First validate the exact size contract
through extract_sample_count — on mismatch fail with SizeMismatch
before any write — then run the write loop.  The middle component is
the caller buffer content after the call: the written samples followed
by whatever tail of the original buffer was never reached. -/
def extract_samples (rd : SignalTableReader) (decode : List Nat → List Int)
    (cache : Nat) (rows : List Nat) (buf : List Int) :
    Except Pod5Error Unit × List Int × Nat :=
  match extract_sample_count rd rows cache with
  | (Except.error e, c2) => (Except.error e, buf, c2)
  | (Except.ok total, c2) =>
    if buf.length ≠ total then (Except.error Pod5Error.SizeMismatch, buf, c2)
    else
      match extract_samples_go rd decode rows c2 buf with
      | (st, written, c3) => (st, written ++ buf.drop written.length, c3)

/-- Cache free resolution result, used to state cache independence:
bounds check then the plain scan. -/
def resolve_pure (rd : SignalTableReader) (row : Nat) : Except Pod5Error (Nat × Nat) :=
  if row < total_rows rd then
    match find_batch rd row with
    | some bs => Except.ok bs
    | none => Except.error Pod5Error.OutOfRange
  else Except.error Pod5Error.OutOfRange

/-- Cache free row resolution to (batch view, local row). -/
def resolve_pure_row (rd : SignalTableReader) (r : Nat) :
    Except Pod5Error (SignalTableRecordBatch × Nat) :=
  match resolve_pure rd r with
  | Except.error e => Except.error e
  | Except.ok (b, start) =>
    match rd.batches[b]? with
    | none => Except.error Pod5Error.OutOfRange
    | some batch => Except.ok (batch, r - start)

/-- Sample count of one global row, cache free. -/
def row_sample_count (rd : SignalTableReader) (r : Nat) : Except Pod5Error Nat :=
  match resolve_pure_row rd r with
  | Except.error e => Except.error e
  | Except.ok (batch, loc) => sample_count batch loc

/-- Per row sample counts of a row list, stopping at the first error. -/
def row_counts_spec (rd : SignalTableReader) : List Nat → Except Pod5Error (List Nat)
  | [] => Except.ok []
  | r :: rs =>
    match row_sample_count rd r with
    | Except.error e => Except.error e
    | Except.ok c =>
      match row_counts_spec rd rs with
      | Except.error e => Except.error e
      | Except.ok cs => Except.ok (c :: cs)

/-- Extraction result of one global row, cache free: resolve, look up
the count, extract into a correctly sized scratch buffer. -/
def row_extract (rd : SignalTableReader) (decode : List Nat → List Int) (r : Nat) :
    Except Pod5Error (List Int) :=
  match resolve_pure_row rd r with
  | Except.error e => Except.error e
  | Except.ok (batch, loc) =>
    match sample_count batch loc with
    | Except.error e => Except.error e
    | Except.ok cnt => extract_signal_row decode batch loc (List.replicate cnt 0)

/-- Per row extraction results of a row list, stopping at the first
error. -/
def rows_extract_spec (rd : SignalTableReader) (decode : List Nat → List Int) :
    List Nat → Except Pod5Error (List (List Int))
  | [] => Except.ok []
  | r :: rs =>
    match row_extract rd decode r with
    | Except.error e => Except.error e
    | Except.ok l =>
      match rows_extract_spec rd decode rs with
      | Except.error e => Except.error e
      | Except.ok ls => Except.ok (l :: ls)

/-- Full observable state of a reader object: the immutable part
(batch sequence and field location map) and the mutable advisory
m_batch_size cache. -/
structure ReaderState where
  reader : SignalTableReader
  batchSize : Nat

/-- read_record_batch as a state transformer on the full reader
state. -/
def rs_read_record_batch (s : ReaderState) (i : Nat) :
    Except Pod5Error SignalTableRecordBatch × ReaderState :=
  (read_record_batch s.reader i, s)

/-- signal_batch_for_row_id as a state transformer on the full reader
state: only the cache component may change. -/
def rs_signal_batch_for_row_id (s : ReaderState) (r : Nat) :
    Except Pod5Error (Nat × Nat) × ReaderState :=
  ((signal_batch_for_row_id s.reader s.batchSize r).1,
    { reader := s.reader, batchSize := (signal_batch_for_row_id s.reader s.batchSize r).2 })

/-- extract_sample_count as a state transformer on the full reader
state. -/
def rs_extract_sample_count (s : ReaderState) (R : List Nat) :
    Except Pod5Error Nat × ReaderState :=
  ((extract_sample_count s.reader R s.batchSize).1,
    { reader := s.reader, batchSize := (extract_sample_count s.reader R s.batchSize).2 })

/-- extract_samples as a state transformer on the full reader state;
the first component is the pair of call status and caller buffer
content after the call. -/
def rs_extract_samples (s : ReaderState) (decode : List Nat → List Int)
    (R : List Nat) (buf : List Int) :
    (Except Pod5Error Unit × List Int) × ReaderState :=
  (((extract_samples s.reader decode s.batchSize R buf).1,
      (extract_samples s.reader decode s.batchSize R buf).2.1),
    { reader := s.reader, batchSize := (extract_samples s.reader decode s.batchSize R buf).2.2 })

/-! Concrete data used by witnesses: the two batch table of the spec
scenarios, rows 0 to 3 in batch 0 and rows 4 to 7 in batch 1; global
row 2 has three raw samples, global row 5 is compressed with declared
sample count 10. -/

/-- Column layout used by the demonstration table. -/
def demoFields : SignalTableSchemaDescription :=
  { read_id := 0, uncompressed_signal := some 1, vbz_signal := none, samples := 2 }

/-- The compressed row at global index 5. -/
def demoRow5 : SignalRow :=
  { sampleCount := 10
    storage := SignalStorage.compressed [20, 21, 22, 23, 24, 25, 26, 27, 28, 29] }

/-- Batch 0 of the demonstration table: four raw rows. -/
def demoBatch0 : SignalTableRecordBatch :=
  { field_locations := demoFields
    rows := [ { sampleCount := 3, storage := SignalStorage.raw [1, 2, 3] }
            , { sampleCount := 1, storage := SignalStorage.raw [4] }
            , { sampleCount := 3, storage := SignalStorage.raw [10, 11, 12] }
            , { sampleCount := 2, storage := SignalStorage.raw [5, 6] } ] }

/-- Batch 1 of the demonstration table: three raw rows and the
compressed row at local index 1. -/
def demoBatch1 : SignalTableRecordBatch :=
  { field_locations := demoFields
    rows := [ { sampleCount := 2, storage := SignalStorage.raw [7, 8] }
            , demoRow5
            , { sampleCount := 1, storage := SignalStorage.raw [9] }
            , { sampleCount := 4, storage := SignalStorage.raw [13, 14, 15, 16] } ] }

/-- The demonstration reader over the two batches. -/
def demoReader : SignalTableReader :=
  { field_locations := demoFields, batches := [demoBatch0, demoBatch1] }

/-- A codec that turns each stored byte into one sample. -/
def demoDecode : List Nat → List Int :=
  fun blob => blob.map Int.ofNat

/-- Per row extraction results for the row list [2, 5, 2] on the
demonstration table under demoDecode. -/
def demoLs : List (List Int) :=
  [[10, 11, 12], [20, 21, 22, 23, 24, 25, 26, 27, 28, 29], [10, 11, 12]]

/-- A broken codec whose output length never matches a positive
declared count. -/
def badDecode : List Nat → List Int :=
  fun _ => []

/-! Lemmas about the fallback scan. -/

/-- The scan finds a batch whenever the row is below the remaining
total, provided the row is at or past the current start. -/
theorem find_batch_in_isSome (cs : List Nat) :
    ∀ (row idx start : Nat), start ≤ row → row < start + cs.sum →
      (find_batch_in cs row idx start).isSome := by
  induction cs with
  | nil =>
    intro row idx start h1 h2
    simp [List.sum_nil] at h2
    omega
  | cons c cs ih =>
    intro row idx start h1 h2
    by_cases hc : row < start + c
    · simp [find_batch_in, hc]
    · rw [find_batch_in, if_neg hc]
      exact ih row (idx + 1) (start + c) (by omega)
        (by simp [List.sum_cons] at h2; omega)

/-- When batch j verifiably contains the row, the scan returns exactly
batch j and its cumulative start. -/
theorem find_batch_in_agree (cs : List Nat) :
    ∀ (row idx start j : Nat), j < cs.length →
      start + (cs.take j).sum ≤ row →
      row < start + (cs.take j).sum + cs.getD j 0 →
      find_batch_in cs row idx start = some (idx + j, start + (cs.take j).sum) := by
  induction cs with
  | nil =>
    intro row idx start j hj _ _
    simp at hj
  | cons c cs ih =>
    intro row idx start j hj h1 h2
    cases j with
    | zero =>
      simp only [List.take_zero, List.sum_nil, Nat.add_zero, List.getD_cons_zero] at h1 h2
      rw [find_batch_in, if_pos h2]
      simp
    | succ j =>
      have hsum : (cs.take j).sum + c = ((c :: cs).take (j + 1)).sum := by
        simp [List.take_succ_cons, List.sum_cons]
        omega
      have hnot : ¬ row < start + c := by
        simp only [List.take_succ_cons, List.sum_cons] at h1
        omega
      rw [find_batch_in, if_neg hnot]
      have := ih row (idx + 1) (start + c) j (by simpa using hj)
        (by simp only [List.take_succ_cons, List.sum_cons] at h1; omega)
        (by simp only [List.take_succ_cons, List.sum_cons, List.getD_cons_succ] at h2 ⊢; omega)
      rw [this]
      simp only [Option.some_inj, Prod.mk.injEq, List.take_succ_cons, List.sum_cons]
      omega

/-- What a successful scan guarantees: the returned start is the
cumulative start of the returned batch, and the row lies inside it. -/
theorem find_batch_in_sound (cs : List Nat) :
    ∀ (row idx start b s : Nat), start ≤ row →
      find_batch_in cs row idx start = some (b, s) →
      ∃ j, j < cs.length ∧ b = idx + j ∧ s = start + (cs.take j).sum ∧
        s ≤ row ∧ row < s + cs.getD j 0 := by
  induction cs with
  | nil =>
    intro row idx start b s _ h
    simp [find_batch_in] at h
  | cons c cs ih =>
    intro row idx start b s hs h
    by_cases hc : row < start + c
    · rw [find_batch_in, if_pos hc] at h
      refine ⟨0, by simp, ?_, ?_, ?_, ?_⟩ <;>
        simp only [Option.some_inj, Prod.mk.injEq] at h <;>
        simp [← h.1, ← h.2, List.getD_cons_zero] <;> omega
    · rw [find_batch_in, if_neg hc] at h
      obtain ⟨j, hj, hb, hs2, h1, h2⟩ := ih row (idx + 1) (start + c) b s (by omega) h
      refine ⟨j + 1, by simpa using hj, by omega, ?_, h1, by simpa using h2⟩
      rw [hs2]
      simp only [List.take_succ_cons, List.sum_cons]
      omega

/-- Number of entries in the row count list. -/
theorem batch_row_counts_length (rd : SignalTableReader) :
    (batch_row_counts rd).length = rd.batches.length := by
  rw [batch_row_counts, List.length_map]

/-- The result component of signal_batch_for_row_id does not depend on
the cache: it always equals the cache free resolution.  The fast path
is only taken when its candidate has been verified against the true
cumulative row counts, and a verified candidate is exactly what the
fallback scan returns. -/
theorem signal_batch_for_row_id_fst (rd : SignalTableReader) (cache row : Nat) :
    (signal_batch_for_row_id rd cache row).1 = resolve_pure rd row := by
  by_cases htot : row < total_rows rd
  · rw [signal_batch_for_row_id, resolve_pure, if_pos htot, if_pos htot]
    by_cases hfast : cache ≠ 0 ∧ row / cache < rd.batches.length
        ∧ batch_start_row rd (row / cache) ≤ row
        ∧ row < batch_start_row rd (row / cache) + row_count rd (row / cache)
    · rw [if_pos hfast]
      obtain ⟨hc0, hlen, h1, h2⟩ := hfast
      have hlen2 : row / cache < (batch_row_counts rd).length := by
        rw [batch_row_counts_length]; exact hlen
      have hfind : find_batch rd row
          = some (0 + row / cache, 0 + ((batch_row_counts rd).take (row / cache)).sum) := by
        apply find_batch_in_agree (batch_row_counts rd) row 0 0 (row / cache) hlen2
        · simpa [batch_start_row] using h1
        · simpa [batch_start_row, row_count] using h2
      rw [hfind]
      simp [batch_start_row]
    · rw [if_neg hfast]
      cases hf : find_batch rd row with
      | some bs => simp
      | none => simp
  · rw [signal_batch_for_row_id, resolve_pure, if_neg htot, if_neg htot]

/-- Row resolution to a batch view is also cache independent in its
result component. -/
theorem resolve_row_fst (rd : SignalTableReader) (cache r : Nat) :
    (resolve_row rd cache r).1 = resolve_pure_row rd r := by
  rcases hsb : signal_batch_for_row_id rd cache r with ⟨res, c2⟩
  have h := signal_batch_for_row_id_fst rd cache r
  rw [hsb] at h
  simp only at h
  rw [resolve_row, hsb, resolve_pure_row, ← h]
  cases res with
  | error e => simp
  | ok bs =>
    rcases bs with ⟨b, start⟩
    cases hb : rd.batches[b]? <;> simp [hb]

/-- The result of extract_signal_row depends on the caller buffer only
through its length: the buffer contents are never read. -/
theorem extract_signal_row_congr (decode : List Nat → List Int)
    (b : SignalTableRecordBatch) (i : Nat) (buf1 buf2 : List Int)
    (h : buf1.length = buf2.length) :
    extract_signal_row decode b i buf1 = extract_signal_row decode b i buf2 := by
  simp only [extract_signal_row, h]

/-- The result component of extract_sample_count is cache independent
and equals the sum over the per row counts, with first error
propagation. -/
theorem extract_sample_count_fst (rd : SignalTableReader) :
    ∀ (R : List Nat) (cache : Nat),
      (extract_sample_count rd R cache).1
        = Except.map List.sum (row_counts_spec rd R) := by
  intro R
  induction R with
  | nil =>
    intro cache
    simp [extract_sample_count, row_counts_spec, Except.map]
  | cons r rs ih =>
    intro cache
    rcases hres : resolve_row rd cache r with ⟨res, c2⟩
    have hfst := resolve_row_fst rd cache r
    rw [hres] at hfst
    simp only at hfst
    rw [extract_sample_count, row_counts_spec, row_sample_count, hres, ← hfst]
    cases res with
    | error e => simp [Except.map]
    | ok bl =>
      rcases bl with ⟨batch, loc⟩
      cases hsc : sample_count batch loc with
      | error e => simp [hsc, Except.map]
      | ok cnt =>
        rcases hrec : extract_sample_count rd rs c2 with ⟨res2, c3⟩
        have h2 := ih c2
        rw [hrec] at h2
        simp only at h2
        cases hrc : row_counts_spec rd rs with
        | error e =>
          rw [hrc] at h2
          simp only [Except.map] at h2
          simp [hsc, hrec, hrc, h2, Except.map]
        | ok cs =>
          rw [hrc] at h2
          simp only [Except.map] at h2
          simp [hsc, hrec, hrc, h2, Except.map, List.sum_cons]

/-- A successfully resolved batch view is one of the reader's stored
batches. -/
theorem resolve_pure_row_mem (rd : SignalTableReader) (r : Nat)
    (batch : SignalTableRecordBatch) (loc : Nat)
    (h : resolve_pure_row rd r = Except.ok (batch, loc)) :
    batch ∈ rd.batches := by
  rw [resolve_pure_row] at h
  cases hrp : resolve_pure rd r with
  | error e => rw [hrp] at h; simp at h
  | ok bs =>
    rcases bs with ⟨b, start⟩
    rw [hrp] at h
    simp only at h
    cases hb : rd.batches[b]? with
    | none => rw [hb] at h; simp at h
    | some batch2 =>
      rw [hb] at h
      simp only [Except.ok.injEq, Prod.mk.injEq] at h
      rw [← h.1]
      exact List.getElem?_mem hb

/-- A successful sample count lookup exhibits the row. -/
theorem sample_count_elim (b : SignalTableRecordBatch) (i cnt : Nat)
    (h : sample_count b i = Except.ok cnt) :
    ∃ row, b.rows[i]? = some row ∧ row.sampleCount = cnt := by
  rw [sample_count] at h
  cases hrow : b.rows[i]? with
  | none => rw [hrow] at h; simp at h
  | some row =>
    rw [hrow] at h
    simp only [Except.ok.injEq] at h
    exact ⟨row, rfl, h⟩

/-- A successful extraction certifies both the exact size contract and,
under the row invariant, that the written content has exactly the
declared sample count. -/
theorem extract_signal_row_ok_spec (decode : List Nat → List Int)
    (b : SignalTableRecordBatch) (i cnt : Nat) (buf out : List Int)
    (hb : ∀ r ∈ b.rows, r.wf = true)
    (hsc : sample_count b i = Except.ok cnt)
    (h : extract_signal_row decode b i buf = Except.ok out) :
    buf.length = cnt ∧ out.length = cnt := by
  obtain ⟨row, hrow, hcnt⟩ := sample_count_elim b i cnt hsc
  rw [extract_signal_row, hrow] at h
  simp only at h
  by_cases hsz : buf.length ≠ row.sampleCount
  · rw [if_pos hsz] at h; simp at h
  · rw [if_neg hsz] at h
    refine ⟨by omega, ?_⟩
    have hwfrow : row.wf = true := hb row (List.getElem?_mem hrow)
    cases hst : row.storage with
    | raw s =>
      rw [hst] at h
      simp only [Except.ok.injEq] at h
      rw [SignalRow.wf, hst] at hwfrow
      simp only [beq_iff_eq] at hwfrow
      rw [← h]
      omega
    | compressed blob =>
      rw [hst] at h
      simp only at h
      by_cases hd : (decode blob).length ≠ row.sampleCount
      · rw [if_pos hd] at h; simp at h
      · rw [if_neg hd] at h
        simp only [Except.ok.injEq] at h
        rw [← h]
        omega

/-- Unpacking a successful cache free single row extraction. -/
theorem row_extract_elim (rd : SignalTableReader) (decode : List Nat → List Int)
    (r : Nat) (l : List Int) (h : row_extract rd decode r = Except.ok l) :
    ∃ batch loc cnt, resolve_pure_row rd r = Except.ok (batch, loc)
      ∧ sample_count batch loc = Except.ok cnt
      ∧ extract_signal_row decode batch loc (List.replicate cnt 0) = Except.ok l := by
  rw [row_extract] at h
  cases hres : resolve_pure_row rd r with
  | error e => rw [hres] at h; simp at h
  | ok bl =>
    rcases bl with ⟨batch, loc⟩
    rw [hres] at h
    simp only at h
    cases hsc : sample_count batch loc with
    | error e => rw [hsc] at h; simp at h
    | ok cnt =>
      rw [hsc] at h
      exact ⟨batch, loc, cnt, rfl, hsc, h⟩

/-- Under the row invariant a successful single row extraction returns
exactly as many samples as the sample count column declares. -/
theorem row_extract_length (rd : SignalTableReader) (decode : List Nat → List Int)
    (r : Nat) (l : List Int) (hwf : ReaderWF rd)
    (h : row_extract rd decode r = Except.ok l) :
    row_sample_count rd r = Except.ok l.length := by
  obtain ⟨batch, loc, cnt, hres, hsc, hex⟩ := row_extract_elim rd decode r l h
  have hbwf : ∀ x ∈ batch.rows, x.wf = true :=
    hwf batch (resolve_pure_row_mem rd r batch loc hres)
  obtain ⟨_, hout⟩ := extract_signal_row_ok_spec decode batch loc cnt
    (List.replicate cnt 0) l hbwf hsc hex
  simp [row_sample_count, hres, hsc, hout]

/-- Per row extraction success determines the per row counts. -/
theorem row_counts_of_extract (rd : SignalTableReader) (decode : List Nat → List Int)
    (hwf : ReaderWF rd) :
    ∀ (R : List Nat) (ls : List (List Int)),
      rows_extract_spec rd decode R = Except.ok ls →
      row_counts_spec rd R = Except.ok (ls.map List.length) := by
  intro R
  induction R with
  | nil =>
    intro ls h
    rw [rows_extract_spec] at h
    simp only [Except.ok.injEq] at h
    rw [← h]
    simp [row_counts_spec]
  | cons r rs ih =>
    intro ls h
    rw [rows_extract_spec] at h
    cases hre : row_extract rd decode r with
    | error e => rw [hre] at h; simp at h
    | ok l =>
      rw [hre] at h
      simp only at h
      cases hrec : rows_extract_spec rd decode rs with
      | error e => rw [hrec] at h; simp at h
      | ok ls2 =>
        rw [hrec] at h
        simp only [Except.ok.injEq] at h
        rw [← h]
        rw [row_counts_spec, row_extract_length rd decode r l hwf hre, ih ls2 hrec]
        simp

/-- Forward characterisation of the write loop: when every row
extracts successfully and the buffer is long enough, the loop succeeds
and writes exactly the concatenation of the per row results, in input
order. -/
theorem extract_samples_go_ok (rd : SignalTableReader) (decode : List Nat → List Int)
    (hwf : ReaderWF rd) :
    ∀ (R : List Nat) (ls : List (List Int)) (cache : Nat) (rest : List Int),
      rows_extract_spec rd decode R = Except.ok ls →
      (ls.map List.length).sum ≤ rest.length →
      (extract_samples_go rd decode R cache rest).1 = Except.ok ()
      ∧ (extract_samples_go rd decode R cache rest).2.1 = ls.flatten := by
  intro R
  induction R with
  | nil =>
    intro ls cache rest h _
    rw [rows_extract_spec] at h
    simp only [Except.ok.injEq] at h
    rw [← h]
    simp [extract_samples_go]
  | cons r rs ih =>
    intro ls cache rest h hlen
    rw [rows_extract_spec] at h
    cases hre : row_extract rd decode r with
    | error e => rw [hre] at h; simp at h
    | ok l =>
      rw [hre] at h
      simp only at h
      cases hrec : rows_extract_spec rd decode rs with
      | error e => rw [hrec] at h; simp at h
      | ok ls2 =>
        rw [hrec] at h
        simp only [Except.ok.injEq] at h
        subst h
        simp only [List.map_cons, List.sum_cons] at hlen
        obtain ⟨batch, loc, cnt, hres, hsc, hex⟩ := row_extract_elim rd decode r l hre
        have hbwf : ∀ x ∈ batch.rows, x.wf = true :=
          hwf batch (resolve_pure_row_mem rd r batch loc hres)
        obtain ⟨_, houtlen⟩ := extract_signal_row_ok_spec decode batch loc cnt
          (List.replicate cnt 0) l hbwf hsc hex
        rcases hrr : resolve_row rd cache r with ⟨res, c2⟩
        have e := resolve_row_fst rd cache r
        rw [hrr, hres] at e
        simp only at e
        subst e
        have htk : (rest.take cnt).length = (List.replicate cnt (0 : Int)).length := by
          rw [List.length_take, List.length_replicate]
          omega
        have hex2 : extract_signal_row decode batch loc (rest.take cnt) = Except.ok l := by
          rw [extract_signal_row_congr decode batch loc _ _ htk, hex]
        rcases hgo : extract_samples_go rd decode rs c2 (rest.drop cnt) with ⟨st, written, c3⟩
        have hdl : (ls2.map List.length).sum ≤ (rest.drop cnt).length := by
          rw [List.length_drop]
          omega
        have hih := ih ls2 c2 (rest.drop cnt) hrec hdl
        rw [hgo] at hih
        simp only at hih
        simp only [extract_samples_go, hrr, hsc, hex2, hgo]
        simp [hih.1, hih.2]

/-- Converse characterisation of the write loop: a successful run
exhibits the per row extraction results, a buffer large enough for
them, and the concatenated output. -/
theorem extract_samples_go_ok_elim (rd : SignalTableReader) (decode : List Nat → List Int)
    (hwf : ReaderWF rd) :
    ∀ (R : List Nat) (cache : Nat) (rest : List Int),
      (extract_samples_go rd decode R cache rest).1 = Except.ok () →
      ∃ ls, rows_extract_spec rd decode R = Except.ok ls
        ∧ (ls.map List.length).sum ≤ rest.length
        ∧ (extract_samples_go rd decode R cache rest).2.1 = ls.flatten := by
  intro R
  induction R with
  | nil =>
    intro cache rest _
    exact ⟨[], rfl, by simp, by simp [extract_samples_go]⟩
  | cons r rs ih =>
    intro cache rest h
    rcases hrr : resolve_row rd cache r with ⟨res, c2⟩
    cases res with
    | error e => simp [extract_samples_go, hrr] at h
    | ok bl =>
      rcases bl with ⟨batch, loc⟩
      cases hsc : sample_count batch loc with
      | error e => simp [extract_samples_go, hrr, hsc] at h
      | ok cnt =>
        cases hex : extract_signal_row decode batch loc (rest.take cnt) with
        | error e => simp [extract_samples_go, hrr, hsc, hex] at h
        | ok out =>
          rcases hgo : extract_samples_go rd decode rs c2 (rest.drop cnt) with ⟨st, written, c3⟩
          simp only [extract_samples_go, hrr, hsc, hex, hgo] at h
          obtain ⟨ls2, hls2, hlen2, hw2⟩ := ih c2 (rest.drop cnt) (by rw [hgo]; exact h)
          rw [hgo] at hw2
          simp only at hw2
          have e := resolve_row_fst rd cache r
          rw [hrr] at e
          simp only at e
          have hbwf : ∀ x ∈ batch.rows, x.wf = true :=
            hwf batch (resolve_pure_row_mem rd r batch loc e.symm)
          obtain ⟨htk, houtlen⟩ := extract_signal_row_ok_spec decode batch loc cnt
            (rest.take cnt) out hbwf hsc hex
          have hcle : cnt ≤ rest.length := by
            rw [List.length_take] at htk
            omega
          have hrex : row_extract rd decode r = Except.ok out := by
            have hlrep : (List.replicate cnt (0 : Int)).length = (rest.take cnt).length := by
              rw [List.length_take, List.length_replicate]
              omega
            rw [row_extract, ← e]
            simp only [hsc]
            rw [extract_signal_row_congr decode batch loc _ _ hlrep, hex]
          refine ⟨out :: ls2, ?_, ?_, ?_⟩
          · rw [rows_extract_spec, hrex, hls2]
          · rw [List.length_drop] at hlen2
            simp only [List.map_cons, List.sum_cons]
            omega
          · simp only [extract_samples_go, hrr, hsc, hex, hgo]
            simp [hw2]

/-- The status and the written content of the write loop depend on the
buffer only through its length, and not on the cache at all. -/
theorem extract_samples_go_congr (rd : SignalTableReader) (decode : List Nat → List Int) :
    ∀ (R : List Nat) (c1 c2 : Nat) (rest1 rest2 : List Int),
      rest1.length = rest2.length →
      (extract_samples_go rd decode R c1 rest1).1 = (extract_samples_go rd decode R c2 rest2).1
      ∧ (extract_samples_go rd decode R c1 rest1).2.1
        = (extract_samples_go rd decode R c2 rest2).2.1 := by
  intro R
  induction R with
  | nil =>
    intro c1 c2 rest1 rest2 _
    simp [extract_samples_go]
  | cons r rs ih =>
    intro c1 c2 rest1 rest2 hlen
    rcases h1 : resolve_row rd c1 r with ⟨res1, c1b⟩
    rcases h2 : resolve_row rd c2 r with ⟨res2, c2b⟩
    have e1 := resolve_row_fst rd c1 r
    have e2 := resolve_row_fst rd c2 r
    rw [h1] at e1
    rw [h2] at e2
    simp only at e1 e2
    have hres : res2 = res1 := by rw [e1, e2]
    subst hres
    cases res2 with
    | error e => simp [extract_samples_go, h1, h2]
    | ok bl =>
      rcases bl with ⟨batch, loc⟩
      cases hsc : sample_count batch loc with
      | error e => simp [extract_samples_go, h1, h2, hsc]
      | ok cnt =>
        have htk : (rest1.take cnt).length = (rest2.take cnt).length := by
          rw [List.length_take, List.length_take, hlen]
        have hexeq : extract_signal_row decode batch loc (rest1.take cnt)
            = extract_signal_row decode batch loc (rest2.take cnt) :=
          extract_signal_row_congr decode batch loc _ _ htk
        cases hex : extract_signal_row decode batch loc (rest1.take cnt) with
        | error e =>
          rw [hex] at hexeq
          simp [extract_samples_go, h1, h2, hsc, hex, hexeq.symm]
        | ok out =>
          rw [hex] at hexeq
          have hdl : (rest1.drop cnt).length = (rest2.drop cnt).length := by
            rw [List.length_drop, List.length_drop, hlen]
          have hihx := ih c1b c2b (rest1.drop cnt) (rest2.drop cnt) hdl
          rcases hg1 : extract_samples_go rd decode rs c1b (rest1.drop cnt) with ⟨st1, w1, d1⟩
          rcases hg2 : extract_samples_go rd decode rs c2b (rest2.drop cnt) with ⟨st2, w2, d2⟩
          rw [hg1, hg2] at hihx
          simp only at hihx
          simp only [extract_samples_go, h1, h2, hsc, hex, hexeq.symm, hg1, hg2]
          simp [hihx.1, hihx.2]

/-- Forward characterisation of extract_samples: when every row
extracts successfully and the buffer has exactly the aggregate length,
the call succeeds and the buffer afterwards holds exactly the
concatenation of the per row results in input order. -/
theorem extract_samples_ok_content (rd : SignalTableReader) (decode : List Nat → List Int)
    (hwf : ReaderWF rd) (cache : Nat) (R : List Nat) (buf : List Int) (ls : List (List Int))
    (hext : rows_extract_spec rd decode R = Except.ok ls)
    (hlen : buf.length = (ls.map List.length).sum) :
    (extract_samples rd decode cache R buf).1 = Except.ok ()
    ∧ (extract_samples rd decode cache R buf).2.1 = ls.flatten := by
  rcases hc : extract_sample_count rd R cache with ⟨res, c2⟩
  have hfst := extract_sample_count_fst rd R cache
  rw [hc, row_counts_of_extract rd decode hwf R ls hext] at hfst
  simp only [Except.map] at hfst
  have hne : ¬ buf.length ≠ (ls.map List.length).sum := by omega
  rcases hgo : extract_samples_go rd decode R c2 buf with ⟨st, written, c3⟩
  have hok := extract_samples_go_ok rd decode hwf R ls c2 buf hext (by omega)
  rw [hgo] at hok
  simp only at hok
  simp only [extract_samples, hc, hfst, if_neg hne, hgo]
  refine ⟨by simp [hok.1], ?_⟩
  simp only [hok.2]
  have hfl : (ls.flatten).length = buf.length := by
    rw [List.length_flatten, hlen]
  simp [hfl, List.drop_length]

/-- Converse characterisation of extract_samples: success exhibits the
per row extraction results, the exact size fact, and the written
content. -/
theorem extract_samples_ok_elim (rd : SignalTableReader) (decode : List Nat → List Int)
    (hwf : ReaderWF rd) (cache : Nat) (R : List Nat) (buf : List Int)
    (h : (extract_samples rd decode cache R buf).1 = Except.ok ()) :
    ∃ ls, rows_extract_spec rd decode R = Except.ok ls
      ∧ buf.length = (ls.map List.length).sum
      ∧ (extract_samples rd decode cache R buf).2.1 = ls.flatten := by
  rcases hc : extract_sample_count rd R cache with ⟨res, c2⟩
  cases res with
  | error e => simp [extract_samples, hc] at h
  | ok total =>
    by_cases hne : buf.length ≠ total
    · simp only [extract_samples, hc, if_pos hne] at h
      simp at h
    · rcases hgo : extract_samples_go rd decode R c2 buf with ⟨st, written, c3⟩
      simp only [extract_samples, hc, if_neg hne, hgo] at h
      obtain ⟨ls, hls, hlen2, hw⟩ := extract_samples_go_ok_elim rd decode hwf R c2 buf
        (by rw [hgo]; exact h)
      rw [hgo] at hw
      simp only at hw
      have hfst := extract_sample_count_fst rd R cache
      rw [hc, row_counts_of_extract rd decode hwf R ls hls] at hfst
      simp only [Except.map, Except.ok.injEq] at hfst
      have hbl : buf.length = (ls.map List.length).sum := by omega
      refine ⟨ls, hls, hbl, ?_⟩
      simp only [extract_samples, hc, if_neg hne, hgo]
      simp only [hw]
      have hfl : (ls.flatten).length = buf.length := by
        rw [List.length_flatten, hbl]
      simp [hfl, List.drop_length]

/-- The status of extract_samples depends on the buffer only through
its length and not on the cache. -/
theorem extract_samples_congr (rd : SignalTableReader) (decode : List Nat → List Int)
    (c1 c2 : Nat) (R : List Nat) (buf1 buf2 : List Int)
    (hlen : buf1.length = buf2.length) :
    (extract_samples rd decode c1 R buf1).1 = (extract_samples rd decode c2 R buf2).1 := by
  rcases h1 : extract_sample_count rd R c1 with ⟨res1, c1b⟩
  rcases h2 : extract_sample_count rd R c2 with ⟨res2, c2b⟩
  have e1 := extract_sample_count_fst rd R c1
  have e2 := extract_sample_count_fst rd R c2
  rw [h1] at e1
  rw [h2] at e2
  simp only at e1 e2
  have hr : res2 = res1 := by rw [e1, e2]
  subst hr
  cases res2 with
  | error e => simp [extract_samples, h1, h2]
  | ok total =>
    by_cases hne : buf1.length ≠ total
    · have hne2 : buf2.length ≠ total := by omega
      simp only [extract_samples, h1, h2, if_pos hne, if_pos hne2]
    · have hne2 : ¬ buf2.length ≠ total := by omega
      rcases hg1 : extract_samples_go rd decode R c1b buf1 with ⟨st1, w1, d1⟩
      rcases hg2 : extract_samples_go rd decode R c2b buf2 with ⟨st2, w2, d2⟩
      have hcg := extract_samples_go_congr rd decode R c1b c2b buf1 buf2 hlen
      rw [hg1, hg2] at hcg
      simp only at hcg
      simp only [extract_samples, h1, h2, if_neg hne, if_neg hne2, hg1, hg2]
      simp [hcg.1]

/-- With one and the same buffer, both the status and the buffer
content after the call are independent of the cache value. -/
theorem extract_samples_cache_congr (rd : SignalTableReader) (decode : List Nat → List Int)
    (c1 c2 : Nat) (R : List Nat) (buf : List Int) :
    (extract_samples rd decode c1 R buf).1 = (extract_samples rd decode c2 R buf).1
    ∧ (extract_samples rd decode c1 R buf).2.1 = (extract_samples rd decode c2 R buf).2.1 := by
  rcases h1 : extract_sample_count rd R c1 with ⟨res1, c1b⟩
  rcases h2 : extract_sample_count rd R c2 with ⟨res2, c2b⟩
  have e1 := extract_sample_count_fst rd R c1
  have e2 := extract_sample_count_fst rd R c2
  rw [h1] at e1
  rw [h2] at e2
  simp only at e1 e2
  have hr : res2 = res1 := by rw [e1, e2]
  subst hr
  cases res2 with
  | error e => simp [extract_samples, h1, h2]
  | ok total =>
    by_cases hne : buf.length ≠ total
    · simp [extract_samples, h1, h2, if_pos hne]
    · rcases hg1 : extract_samples_go rd decode R c1b buf with ⟨st1, w1, d1⟩
      rcases hg2 : extract_samples_go rd decode R c2b buf with ⟨st2, w2, d2⟩
      have hcg := extract_samples_go_congr rd decode R c1b c2b buf buf rfl
      rw [hg1, hg2] at hcg
      simp only at hcg
      simp only [extract_samples, h1, h2, if_neg hne, hg1, hg2]
      simp [hcg.1, hcg.2]

/-- C1: every global row index below the total resolves to a verified
(batch, start) pair with start ≤ row < start + row_count; indices at or
past the total fail with OutOfRange; and the returned result is the
same for every value of the standard batch size cache. -/
theorem C1_signal_batch_for_row_id_correct (rd : SignalTableReader)
    (cache cache2 row : Nat) :
    (row < total_rows rd →
      ∃ b, b < rd.batches.length
        ∧ (signal_batch_for_row_id rd cache row).1
            = Except.ok (b, batch_start_row rd b)
        ∧ batch_start_row rd b ≤ row
        ∧ row < batch_start_row rd b + row_count rd b)
    ∧ (total_rows rd ≤ row →
      (signal_batch_for_row_id rd cache row).1 = Except.error Pod5Error.OutOfRange)
    ∧ (signal_batch_for_row_id rd cache row).1
        = (signal_batch_for_row_id rd cache2 row).1 := by
  refine ⟨?_, ?_, ?_⟩
  · intro htot
    rw [signal_batch_for_row_id_fst, resolve_pure, if_pos htot]
    have hsome := find_batch_in_isSome (batch_row_counts rd) row 0 0 (Nat.zero_le row)
      (by simpa [total_rows] using htot)
    cases hfb : find_batch rd row with
    | none =>
      rw [find_batch] at hfb
      rw [hfb] at hsome
      simp at hsome
    | some bs =>
      rcases bs with ⟨b, s⟩
      have hfb2 : find_batch_in (batch_row_counts rd) row 0 0 = some (b, s) := by
        rw [← find_batch, hfb]
      obtain ⟨j, hj, hb, hs, hle, hlt⟩ :=
        find_batch_in_sound (batch_row_counts rd) row 0 0 b s (Nat.zero_le row) hfb2
      have hbs : batch_start_row rd b = s := by
        rw [batch_start_row, hb, hs]
        simp
      refine ⟨b, ?_, ?_, ?_, ?_⟩
      · rw [← batch_row_counts_length rd]
        omega
      · simp [hbs]
      · rw [hbs]
        exact hle
      · rw [hbs, row_count, hb]
        simpa using hlt
  · intro htot
    rw [signal_batch_for_row_id_fst, resolve_pure, if_neg (by omega)]
  · rw [signal_batch_for_row_id_fst, signal_batch_for_row_id_fst]

/-- Witness for C1: on the demonstration table row 5 resolves with a
cold cache, and row 8 (the total) is rejected with a poisoned cache. -/
theorem C1_signal_batch_for_row_id_correct_witness :
    (5 < total_rows demoReader
      ∧ ∃ b, b < demoReader.batches.length
        ∧ (signal_batch_for_row_id demoReader 0 5).1
            = Except.ok (b, batch_start_row demoReader b)
        ∧ batch_start_row demoReader b ≤ 5
        ∧ 5 < batch_start_row demoReader b + row_count demoReader b)
    ∧ (total_rows demoReader ≤ 8
      ∧ (signal_batch_for_row_id demoReader 3 8).1 = Except.error Pod5Error.OutOfRange) := by
  constructor
  · exact ⟨by decide, (C1_signal_batch_for_row_id_correct demoReader 0 7 5).1 (by decide)⟩
  · exact ⟨by decide, (C1_signal_batch_for_row_id_correct demoReader 3 9 8).2.1 (by decide)⟩

/-- C2: when every listed row extracts successfully and the buffer has
exactly the aggregate length, extract_samples succeeds and the buffer
afterwards is the concatenation of the per row sample lists in input
order, repeats included. -/
theorem C2_extract_samples_order (rd : SignalTableReader) (decode : List Nat → List Int)
    (cache : Nat) (R : List Nat) (buf : List Int) (ls : List (List Int))
    (hwf : ReaderWF rd)
    (hext : rows_extract_spec rd decode R = Except.ok ls)
    (hlen : buf.length = (ls.map List.length).sum) :
    (extract_samples rd decode cache R buf).1 = Except.ok ()
    ∧ (extract_samples rd decode cache R buf).2.1 = ls.flatten :=
  extract_samples_ok_content rd decode hwf cache R buf ls hext hlen

/-- Witness for C2: the spec scenario extract_samples([2, 5, 2]) with
sample counts 3, 10, 3 fills a 16 sample buffer as [row2][row5][row2]. -/
theorem C2_extract_samples_order_witness :
    ReaderWF demoReader
    ∧ rows_extract_spec demoReader demoDecode [2, 5, 2] = Except.ok demoLs
    ∧ (List.replicate 16 (0 : Int)).length = (demoLs.map List.length).sum
    ∧ ((extract_samples demoReader demoDecode 0 [2, 5, 2] (List.replicate 16 0)).1
        = Except.ok ()
      ∧ (extract_samples demoReader demoDecode 0 [2, 5, 2] (List.replicate 16 0)).2.1
        = demoLs.flatten) :=
  ⟨by decide, by decide, by decide,
    C2_extract_samples_order demoReader demoDecode 0 [2, 5, 2]
      (List.replicate 16 0) demoLs (by decide) (by decide) (by decide)⟩

/-- C3: for a valid local row, a buffer whose length differs from the
declared sample count is rejected with SizeMismatch, and for a
compressed row with a matching buffer a codec output of the wrong
length is rejected with CorruptData. -/
theorem C3_extract_signal_row_errors (decode : List Nat → List Int)
    (b : SignalTableRecordBatch) (i : Nat) (row : SignalRow) (buf : List Int)
    (hrow : b.rows[i]? = some row) :
    (buf.length ≠ row.sampleCount →
      extract_signal_row decode b i buf = Except.error Pod5Error.SizeMismatch)
    ∧ (∀ blob, row.storage = SignalStorage.compressed blob →
        buf.length = row.sampleCount →
        (decode blob).length ≠ row.sampleCount →
        extract_signal_row decode b i buf = Except.error Pod5Error.CorruptData) := by
  constructor
  · intro hsz
    rw [extract_signal_row, hrow]
    simp only
    rw [if_pos hsz]
  · intro blob hst hsz hd
    rw [extract_signal_row, hrow]
    simp only
    rw [if_neg (by omega), hst]
    simp only
    rw [if_pos hd]

/-- Witness for C3 at the compressed demonstration row (declared count
10): a 9 sample buffer gives SizeMismatch, and with a 10 sample buffer
a codec returning 0 samples gives CorruptData. -/
theorem C3_extract_signal_row_errors_witness :
    extract_signal_row badDecode demoBatch1 1 (List.replicate 9 0)
      = Except.error Pod5Error.SizeMismatch
    ∧ extract_signal_row badDecode demoBatch1 1 (List.replicate 10 0)
      = Except.error Pod5Error.CorruptData := by
  constructor
  · exact (C3_extract_signal_row_errors badDecode demoBatch1 1 demoRow5
      (List.replicate 9 0) (by decide)).1 (by decide)
  · exact (C3_extract_signal_row_errors badDecode demoBatch1 1 demoRow5
      (List.replicate 10 0) (by decide)).2
      [20, 21, 22, 23, 24, 25, 26, 27, 28, 29] (by decide) (by decide) (by decide)

/-- C4: a raw mode row with a correctly sized buffer extracts to
exactly the stored sample sequence, unchanged. -/
theorem C4_extract_signal_row_raw_roundtrip (decode : List Nat → List Int)
    (b : SignalTableRecordBatch) (i : Nat) (row : SignalRow) (s buf : List Int)
    (hrow : b.rows[i]? = some row)
    (hraw : row.storage = SignalStorage.raw s)
    (hlen : buf.length = row.sampleCount) :
    extract_signal_row decode b i buf = Except.ok s := by
  rw [extract_signal_row, hrow]
  simp only
  rw [if_neg (by omega), hraw]

/-- Witness for C4: raw row 0 of batch 0 round trips its three stored
samples, even under the broken codec. -/
theorem C4_extract_signal_row_raw_roundtrip_witness :
    extract_signal_row badDecode demoBatch0 0 (List.replicate 3 0)
      = Except.ok [1, 2, 3] :=
  C4_extract_signal_row_raw_roundtrip badDecode demoBatch0 0
    { sampleCount := 3, storage := SignalStorage.raw [1, 2, 3] }
    [1, 2, 3] (List.replicate 3 0) (by decide) (by decide) (by decide)

/-- C5: extract_sample_count returns the sum, in input order and with
repeats, of the per row sample counts when every index resolves, and
otherwise fails with the first error encountered; no partial sum is
ever returned. -/
theorem C5_extract_sample_count_sum (rd : SignalTableReader) (R : List Nat) (cache : Nat) :
    (∀ cs, row_counts_spec rd R = Except.ok cs →
      (extract_sample_count rd R cache).1 = Except.ok cs.sum)
    ∧ (∀ e, row_counts_spec rd R = Except.error e →
      (extract_sample_count rd R cache).1 = Except.error e) := by
  constructor
  · intro cs hcs
    rw [extract_sample_count_fst, hcs]
    simp [Except.map]
  · intro e he
    rw [extract_sample_count_fst, he]
    simp [Except.map]

/-- Witness for C5: on the demonstration table the unsorted repeating
list [2, 5, 2] sums to 16, and the out of range index 9 propagates
OutOfRange. -/
theorem C5_extract_sample_count_sum_witness :
    (row_counts_spec demoReader [2, 5, 2] = Except.ok [3, 10, 3]
      ∧ (extract_sample_count demoReader [2, 5, 2] 0).1 = Except.ok 16)
    ∧ (row_counts_spec demoReader [5, 9, 2] = Except.error Pod5Error.OutOfRange
      ∧ (extract_sample_count demoReader [5, 9, 2] 4).1
          = Except.error Pod5Error.OutOfRange) := by
  constructor
  · refine ⟨by decide, ?_⟩
    have h := (C5_extract_sample_count_sum demoReader [2, 5, 2] 0).1 [3, 10, 3] (by decide)
    simpa using h
  · refine ⟨by decide, ?_⟩
    exact (C5_extract_sample_count_sum demoReader [5, 9, 2] 4).2
      Pod5Error.OutOfRange (by decide)

/-- C6: a buffer whose length differs from the aggregate sample count
makes extract_samples fail with SizeMismatch, and the buffer content is
untouched by the failing call. -/
theorem C6_extract_samples_size_mismatch (rd : SignalTableReader)
    (decode : List Nat → List Int) (cache : Nat) (R : List Nat) (buf : List Int)
    (total : Nat)
    (hcnt : (extract_sample_count rd R cache).1 = Except.ok total)
    (hne : buf.length ≠ total) :
    (extract_samples rd decode cache R buf).1 = Except.error Pod5Error.SizeMismatch
    ∧ (extract_samples rd decode cache R buf).2.1 = buf := by
  rcases hc : extract_sample_count rd R cache with ⟨res, c2⟩
  rw [hc] at hcnt
  simp only at hcnt
  subst hcnt
  simp [extract_samples, hc, if_pos hne]

/-- Witness for C6: a 5 sample buffer against the 16 sample aggregate
of [2, 5, 2] is rejected and returned unchanged. -/
theorem C6_extract_samples_size_mismatch_witness :
    ((extract_sample_count demoReader [2, 5, 2] 0).1 = Except.ok 16
      ∧ (List.replicate 5 (0 : Int)).length ≠ 16)
    ∧ ((extract_samples demoReader demoDecode 0 [2, 5, 2] (List.replicate 5 0)).1
        = Except.error Pod5Error.SizeMismatch
      ∧ (extract_samples demoReader demoDecode 0 [2, 5, 2] (List.replicate 5 0)).2.1
        = List.replicate 5 0) :=
  ⟨⟨by decide, by decide⟩,
    C6_extract_samples_size_mismatch demoReader demoDecode 0 [2, 5, 2]
      (List.replicate 5 0) 16 (by decide) (by decide)⟩

/-- C7: samples_byte_count on a valid local row returns the declared
sample count times the 2 byte sample width, from the sample count
column alone, and fails with OutOfRange past the batch row count. -/
theorem C7_samples_byte_count_correct (b : SignalTableRecordBatch) (i : Nat) :
    (∀ row, b.rows[i]? = some row →
      samples_byte_count b i = Except.ok (row.sampleCount * 2))
    ∧ (b.rows.length ≤ i →
      samples_byte_count b i = Except.error Pod5Error.OutOfRange) := by
  constructor
  · intro row hrow
    rw [samples_byte_count, sample_count, hrow]
    simp [Except.map]
  · intro hge
    have hnone : b.rows[i]? = none := by
      rw [List.getElem?_eq_none_iff]
      exact hge
    rw [samples_byte_count, sample_count, hnone]
    simp [Except.map]

/-- Witness for C7: local row 1 of demonstration batch 1 (count 10)
gives 20 bytes; local row 4 is out of range. -/
theorem C7_samples_byte_count_correct_witness :
    samples_byte_count demoBatch1 1 = Except.ok 20
    ∧ samples_byte_count demoBatch1 4 = Except.error Pod5Error.OutOfRange := by
  constructor
  · have h := (C7_samples_byte_count_correct demoBatch1 1).1 demoRow5 (by decide)
    simpa using h
  · exact (C7_samples_byte_count_correct demoBatch1 4).2 (by decide)

/-- C8 counterexample: at global row 0 of the demonstration table the
single row aggregate is 3 samples while samples_byte_count reports 6
bytes, so the claimed equality, sample count times one equals the byte
count, fails. -/
theorem C8_counterexample_units :
    resolve_pure_row demoReader 0 = Except.ok (demoBatch0, 0)
    ∧ (extract_sample_count demoReader [0] 0).1 = Except.ok 3
    ∧ samples_byte_count demoBatch0 0 = Except.ok 6
    ∧ ¬ (3 * 1 = 6) := by
  refine ⟨by decide, by decide, by decide, by decide⟩

/-- C8 amended: for a single resolvable row, the aggregate sample
count times the per sample width of 2 bytes equals the per row byte
count reported by samples_byte_count. -/
theorem C8_amended_count_vs_bytes (rd : SignalTableReader) (cache r cnt : Nat)
    (h : (extract_sample_count rd [r] cache).1 = Except.ok cnt) :
    ∃ batch loc, resolve_pure_row rd r = Except.ok (batch, loc)
      ∧ samples_byte_count batch loc = Except.ok (cnt * 2) := by
  rw [extract_sample_count_fst] at h
  cases hrsc : row_sample_count rd r with
  | error e =>
    rw [row_counts_spec, hrsc] at h
    simp [Except.map] at h
  | ok c =>
    rw [row_counts_spec, hrsc, row_counts_spec] at h
    simp only [Except.map, Except.ok.injEq, List.sum_cons, List.sum_nil] at h
    rw [row_sample_count] at hrsc
    cases hres : resolve_pure_row rd r with
    | error e => rw [hres] at hrsc; simp at hrsc
    | ok bl =>
      rcases bl with ⟨batch, loc⟩
      rw [hres] at hrsc
      simp only at hrsc
      refine ⟨batch, loc, rfl, ?_⟩
      rw [samples_byte_count, hrsc]
      simp [Except.map]
      omega

/-- Witness for C8 amended: row 0 counts 3 samples and 6 bytes. -/
theorem C8_amended_count_vs_bytes_witness :
    (extract_sample_count demoReader [0] 7).1 = Except.ok 3
    ∧ ∃ batch loc, resolve_pure_row demoReader 0 = Except.ok (batch, loc)
      ∧ samples_byte_count batch loc = Except.ok (3 * 2) :=
  ⟨by decide, C8_amended_count_vs_bytes demoReader 7 0 3 (by decide)⟩

/-- C9: extraction is deterministic across repeated calls: for any two
cache states, in particular the state left behind by an earlier call,
and any two fresh correctly sized buffers, extract_samples returns the
same status, on success writes identical contents, and
extract_signal_row's result never depends on prior buffer contents. -/
theorem C9_repeated_extraction_deterministic (rd : SignalTableReader)
    (decode : List Nat → List Int) (c1 c2 : Nat) (R : List Nat)
    (buf1 buf2 : List Int) (hwf : ReaderWF rd) (hlen : buf1.length = buf2.length) :
    (extract_samples rd decode c1 R buf1).1 = (extract_samples rd decode c2 R buf2).1
    ∧ ((extract_samples rd decode c1 R buf1).1 = Except.ok () →
      (extract_samples rd decode c1 R buf1).2.1 = (extract_samples rd decode c2 R buf2).2.1)
    ∧ (∀ (b : SignalTableRecordBatch) (i : Nat) (bufA bufB : List Int),
        bufA.length = bufB.length →
        extract_signal_row decode b i bufA = extract_signal_row decode b i bufB) := by
  refine ⟨extract_samples_congr rd decode c1 c2 R buf1 buf2 hlen, ?_,
    fun b i bufA bufB hx => extract_signal_row_congr decode b i bufA bufB hx⟩
  intro hok
  obtain ⟨ls, hls, hbl, hw⟩ := extract_samples_ok_elim rd decode hwf c1 R buf1 hok
  have hok2 : (extract_samples rd decode c2 R buf2).1 = Except.ok () := by
    rw [← extract_samples_congr rd decode c1 c2 R buf1 buf2 hlen]
    exact hok
  obtain ⟨ls2, hls2, hbl2, hw2⟩ := extract_samples_ok_elim rd decode hwf c2 R buf2 hok2
  rw [hls] at hls2
  simp only [Except.ok.injEq] at hls2
  rw [hw, hw2, hls2]

/-- Witness for C9: the calls with a cold cache on a zero buffer and a
poisoned cache on a one filled buffer agree on [2, 5, 2]. -/
theorem C9_repeated_extraction_deterministic_witness :
    ReaderWF demoReader
    ∧ (List.replicate 16 (0 : Int)).length = (List.replicate 16 (1 : Int)).length
    ∧ ((extract_samples demoReader demoDecode 0 [2, 5, 2] (List.replicate 16 0)).1
        = (extract_samples demoReader demoDecode 99 [2, 5, 2] (List.replicate 16 1)).1
      ∧ ((extract_samples demoReader demoDecode 0 [2, 5, 2] (List.replicate 16 0)).1
            = Except.ok () →
        (extract_samples demoReader demoDecode 0 [2, 5, 2] (List.replicate 16 0)).2.1
          = (extract_samples demoReader demoDecode 99 [2, 5, 2] (List.replicate 16 1)).2.1)) :=
  ⟨by decide, by decide,
    (C9_repeated_extraction_deterministic demoReader demoDecode 0 99 [2, 5, 2]
      (List.replicate 16 0) (List.replicate 16 1) (by decide) (by decide)).1,
    (C9_repeated_extraction_deterministic demoReader demoDecode 0 99 [2, 5, 2]
      (List.replicate 16 0) (List.replicate 16 1) (by decide) (by decide)).2.1⟩

/-- C10: every public read operation preserves the reader proper (the
batch sequence and field location map); only the advisory batch size
cache component may change, and no operation's result depends on that
cache value. -/
theorem C10_read_ops_frame (s : ReaderState) (c2 : Nat) (i r : Nat) (R : List Nat)
    (buf : List Int) (decode : List Nat → List Int) :
    ((rs_read_record_batch s i).2.reader = s.reader
      ∧ (rs_signal_batch_for_row_id s r).2.reader = s.reader
      ∧ (rs_extract_sample_count s R).2.reader = s.reader
      ∧ (rs_extract_samples s decode R buf).2.reader = s.reader)
    ∧ ((rs_read_record_batch s i).1
        = (rs_read_record_batch { reader := s.reader, batchSize := c2 } i).1
      ∧ (rs_signal_batch_for_row_id s r).1
        = (rs_signal_batch_for_row_id { reader := s.reader, batchSize := c2 } r).1
      ∧ (rs_extract_sample_count s R).1
        = (rs_extract_sample_count { reader := s.reader, batchSize := c2 } R).1
      ∧ (rs_extract_samples s decode R buf).1
        = (rs_extract_samples { reader := s.reader, batchSize := c2 } decode R buf).1) := by
  refine ⟨⟨rfl, rfl, rfl, rfl⟩, rfl, ?_, ?_, ?_⟩
  · rw [rs_signal_batch_for_row_id, rs_signal_batch_for_row_id]
    simp only
    rw [signal_batch_for_row_id_fst, signal_batch_for_row_id_fst]
  · rw [rs_extract_sample_count, rs_extract_sample_count]
    simp only
    rw [extract_sample_count_fst, extract_sample_count_fst]
  · rw [rs_extract_samples, rs_extract_samples]
    simp only
    have h := extract_samples_cache_congr s.reader decode s.batchSize c2 R buf
    rw [h.1, h.2]

end Pod5
